import Mathlib

/-!
Shallow embedding of the token-transfer-api core (internal/db/wallet.go and
internal/model) and proofs of the specified properties of `TransferTokens`
and `GetWallet`.

The wallets table is modelled as an association list `List (String × Int)`
(address, balance); the `address` column is the primary key, so reachable
database states have pairwise distinct addresses (`NodupKeys`).  Balances are
stored in a `DECIMAL(78,0)` column and read back as decimal strings that
always re-parse, so the model carries them as integers directly; the
`invalid sender balance format` branch of the Go code is unreachable for
such states and has no counterpart here.  The transfers table is modelled as
a list of records in insertion order (`id` ascending).

Each `Transfer` call runs inside a single database transaction with
`defer tx.Rollback()`: on any error the transaction is rolled back and the
store is unchanged.  `TransferTokens` therefore returns the resulting store
alongside the result, returning the input store unchanged on every error
path.  Backing-store failures (`StoreFailure`) have no counterpart in the
sequential model: the three remaining error kinds all occur before any
write.
-/

set_option autoImplicit false

namespace TokenTransfer

/-- internal/model: `Wallet` as returned by `GetWallet` (balance scanned as a
decimal string). -/
structure Wallet where
  address : String
  balance : String
deriving Repr, DecidableEq

/-- One row of the `transfers` table (the `id` and `created_at` columns,
assigned by the store, are left implicit in the list position). -/
structure TransferRecord where
  fromAddress : String
  toAddress : String
  amount : Int
deriving Repr, DecidableEq

/-- The database state: the `wallets` table and the `transfers` log. -/
structure LedgerState where
  wallets : List (String × Int)
  transfers : List TransferRecord
deriving Repr, DecidableEq

/-- Value of a decimal-digit character. -/
def digitVal (c : Char) : Nat := c.toNat - 48

/-- Value of a list of decimal digits, most significant first. -/
def decDigitsVal (cs : List Char) : Nat :=
  cs.foldl (fun acc c => 10 * acc + digitVal c) 0

/-- A nonempty all-decimal-digit character list. -/
def isDigitStr (cs : List Char) : Bool :=
  !cs.isEmpty && cs.all Char.isDigit

/-- Go `new(big.Int).SetString(s, 10)`: an optional sign followed by a
nonempty run of decimal digits, with the entire string consumed (base 10
admits no underscores, no base prefix and no whitespace). -/
def parseBigInt (s : String) : Option Int :=
  match s.data with
  | [] => none
  | c :: rest =>
    if c = '-' then
      if isDigitStr rest then some (-(decDigitsVal rest : Int)) else none
    else if c = '+' then
      if isDigitStr rest then some ((decDigitsVal rest : Int)) else none
    else
      if isDigitStr (c :: rest) then some ((decDigitsVal (c :: rest) : Int)) else none

/-- Go `big.Int.String()`: minimal decimal representation, `-` sign for
negative values. -/
def intDecString (i : Int) : String :=
  if i < 0 then "-" ++ Nat.repr i.natAbs else Nat.repr i.natAbs

/-- `SELECT balance FROM wallets WHERE address = $1` (first matching row). -/
def getBalance : List (String × Int) → String → Option Int
  | [], _ => none
  | (a, b) :: rest, addr => if a = addr then some b else getBalance rest addr

/-- `SELECT EXISTS(SELECT 1 FROM wallets WHERE address = $1)`. -/
def walletExists (w : List (String × Int)) (addr : String) : Bool :=
  (getBalance w addr).isSome

/-- `UPDATE wallets SET balance = $1 WHERE address = $2`: every row whose
address matches gets the new balance. -/
def setBalance : List (String × Int) → String → Int → List (String × Int)
  | [], _, _ => []
  | (a, b) :: rest, addr, v =>
    (a, if a = addr then v else b) :: setBalance rest addr v

/-- `UPDATE wallets SET balance = balance + $1 WHERE address = $2`: a
store-side additive update of every matching row. -/
def addBalance : List (String × Int) → String → Int → List (String × Int)
  | [], _, _ => []
  | (a, b) :: rest, addr, d =>
    (a, if a = addr then b + d else b) :: addBalance rest addr d

/-- `GetWallet` (wallet.go): point read of the committed balance; `sql.ErrNoRows`
is mapped to `(nil, nil)`, modelled as `none`. -/
def GetWallet (st : LedgerState) (address : String) : Option Wallet :=
  match getBalance st.wallets address with
  | some b => some ⟨address, intDecString b⟩
  | none => none

/-- The error taxonomy of `TransferTokens` reachable in the sequential model
(`StoreFailure`, a backing-store fault, cannot occur here). -/
inductive TransferErr where
  | invalidAmount
  | senderNotFound
  | insufficientBalance
deriving Repr, DecidableEq

/-- `TransferTokens` (wallet.go): validate the amount, read the sender
balance, check sufficiency, write the debited sender balance, credit or
create the receiver, append the transfer record, commit.  The returned
state is the committed store; every error path rolls the transaction back
and returns the input store unchanged. -/
def TransferTokens (st : LedgerState) (fromAddress toAddress amount : String) :
    Except TransferErr String × LedgerState :=
  match parseBigInt amount with
  | none => (Except.error TransferErr.invalidAmount, st)
  | some amountBig =>
    if amountBig ≤ 0 then
      (Except.error TransferErr.invalidAmount, st)
    else
      match getBalance st.wallets fromAddress with
      | none => (Except.error TransferErr.senderNotFound, st)
      | some senderBalanceBig =>
        if senderBalanceBig < amountBig then
          (Except.error TransferErr.insufficientBalance, st)
        else
          let newSenderBalance := senderBalanceBig - amountBig
          let w1 := setBalance st.wallets fromAddress newSenderBalance
          let w2 :=
            if walletExists w1 toAddress then addBalance w1 toAddress amountBig
            else w1 ++ [(toAddress, amountBig)]
          (Except.ok (intDecString newSenderBalance),
           { wallets := w2,
             transfers := st.transfers ++ [⟨fromAddress, toAddress, amountBig⟩] })

/-- Run a sequence of `Transfer` calls `(from, to, amount)` in order; a failed
call leaves the store as it was. -/
def runTransfers (st : LedgerState) (calls : List (String × String × String)) :
    LedgerState :=
  calls.foldl (fun s c => (TransferTokens s c.1 c.2.1 c.2.2).2) st

/-- All balances in the store are non-negative (the `CHECK (balance >= 0)`
column constraint). -/
def NonNegState (st : LedgerState) : Prop :=
  ∀ p ∈ st.wallets, 0 ≤ p.2

instance (st : LedgerState) : Decidable (NonNegState st) :=
  List.decidableBAll _ st.wallets

/-- Addresses are pairwise distinct (the `address` primary key). -/
def NodupKeys (st : LedgerState) : Prop :=
  (st.wallets.map Prod.fst).Nodup

instance (st : LedgerState) : Decidable (NodupKeys st) :=
  List.nodupDecidable _

/-- Sum of all wallet balances in the store. -/
def totalBalance (st : LedgerState) : Int :=
  (st.wallets.map Prod.snd).sum

/-! ### Lemmas about the table primitives -/

theorem getBalance_setBalance_self (w : List (String × Int)) (a : String) (v : Int) :
    getBalance (setBalance w a v) a = (getBalance w a).map (fun _ => v) := by
  induction w with
  | nil => rfl
  | cons p rest ih =>
    obtain ⟨k, b⟩ := p
    by_cases h : k = a
    · simp [getBalance, setBalance, h]
    · simp [getBalance, setBalance, h, ih]

theorem getBalance_setBalance_ne (w : List (String × Int)) (a : String) (v : Int)
    (a2 : String) (h : a2 ≠ a) :
    getBalance (setBalance w a v) a2 = getBalance w a2 := by
  induction w with
  | nil => rfl
  | cons p rest ih =>
    obtain ⟨k, b⟩ := p
    by_cases hk : k = a2
    · subst hk
      simp [getBalance, setBalance, if_neg h]
    · simp [getBalance, setBalance, hk, ih]

theorem getBalance_addBalance_self (w : List (String × Int)) (a : String) (d : Int) :
    getBalance (addBalance w a d) a = (getBalance w a).map (fun b => b + d) := by
  induction w with
  | nil => rfl
  | cons p rest ih =>
    obtain ⟨k, b⟩ := p
    by_cases h : k = a
    · simp [getBalance, addBalance, h]
    · simp [getBalance, addBalance, h, ih]

theorem getBalance_addBalance_ne (w : List (String × Int)) (a : String) (d : Int)
    (a2 : String) (h : a2 ≠ a) :
    getBalance (addBalance w a d) a2 = getBalance w a2 := by
  induction w with
  | nil => rfl
  | cons p rest ih =>
    obtain ⟨k, b⟩ := p
    by_cases hk : k = a2
    · subst hk
      simp [getBalance, addBalance, if_neg h]
    · simp [getBalance, addBalance, hk, ih]

theorem keys_setBalance (w : List (String × Int)) (a : String) (v : Int) :
    (setBalance w a v).map Prod.fst = w.map Prod.fst := by
  induction w with
  | nil => rfl
  | cons p rest ih =>
    obtain ⟨k, b⟩ := p
    simp [setBalance, ih]

theorem keys_addBalance (w : List (String × Int)) (a : String) (d : Int) :
    (addBalance w a d).map Prod.fst = w.map Prod.fst := by
  induction w with
  | nil => rfl
  | cons p rest ih =>
    obtain ⟨k, b⟩ := p
    simp [addBalance, ih]

theorem getBalance_append_some (w l : List (String × Int)) (a : String) (b : Int)
    (h : getBalance w a = some b) :
    getBalance (w ++ l) a = some b := by
  induction w with
  | nil => simp [getBalance] at h
  | cons p rest ih =>
    obtain ⟨k, b0⟩ := p
    rw [List.cons_append]
    by_cases hk : k = a
    · simp only [getBalance, if_pos hk] at h ⊢
      exact h
    · simp only [getBalance, if_neg hk] at h ⊢
      exact ih h

theorem getBalance_append_none (w l : List (String × Int)) (a : String)
    (h : getBalance w a = none) :
    getBalance (w ++ l) a = getBalance l a := by
  induction w with
  | nil => rfl
  | cons p rest ih =>
    obtain ⟨k, b0⟩ := p
    by_cases hk : k = a
    · simp [getBalance, hk] at h
    · simp only [getBalance, hk, if_false] at h
      simp only [List.cons_append, getBalance, if_neg hk]
      exact ih h

theorem getBalance_eq_none_iff (w : List (String × Int)) (a : String) :
    getBalance w a = none ↔ a ∉ w.map Prod.fst := by
  induction w with
  | nil => simp [getBalance]
  | cons p rest ih =>
    obtain ⟨k, b⟩ := p
    by_cases hk : k = a
    · simp [getBalance, hk]
    · simp [getBalance, hk, ih, Ne.symm hk]

theorem walletExists_iff (w : List (String × Int)) (a : String) :
    walletExists w a = true ↔ ∃ b, getBalance w a = some b := by
  simp [walletExists, Option.isSome_iff_exists]

theorem setBalance_of_not_mem (w : List (String × Int)) (a : String) (v : Int)
    (h : a ∉ w.map Prod.fst) : setBalance w a v = w := by
  induction w with
  | nil => rfl
  | cons p rest ih =>
    obtain ⟨k, b⟩ := p
    simp only [List.map_cons, List.mem_cons, not_or] at h
    simp [setBalance, Ne.symm h.1, ih h.2]

theorem addBalance_of_not_mem (w : List (String × Int)) (a : String) (d : Int)
    (h : a ∉ w.map Prod.fst) : addBalance w a d = w := by
  induction w with
  | nil => rfl
  | cons p rest ih =>
    obtain ⟨k, b⟩ := p
    simp only [List.map_cons, List.mem_cons, not_or] at h
    simp [addBalance, Ne.symm h.1, ih h.2]

theorem sum_setBalance (w : List (String × Int)) (a : String) (v b : Int)
    (hnd : (w.map Prod.fst).Nodup) (h : getBalance w a = some b) :
    ((setBalance w a v).map Prod.snd).sum = (w.map Prod.snd).sum - b + v := by
  induction w with
  | nil => simp [getBalance] at h
  | cons p rest ih =>
    obtain ⟨k, b0⟩ := p
    simp only [List.map_cons, List.nodup_cons] at hnd
    by_cases hk : k = a
    · have hb : b0 = b := by
        simp only [getBalance, if_pos hk, Option.some.injEq] at h
        exact h
      subst hb
      rw [setBalance, if_pos hk, setBalance_of_not_mem rest a v (hk ▸ hnd.1)]
      simp only [List.map_cons, List.sum_cons]
      ring
    · have h2 : getBalance rest a = some b := by
        simp only [getBalance, if_neg hk] at h
        exact h
      simp only [setBalance, if_neg hk, List.map_cons, List.sum_cons,
        ih hnd.2 h2]
      ring

theorem sum_addBalance (w : List (String × Int)) (a : String) (d b : Int)
    (hnd : (w.map Prod.fst).Nodup) (h : getBalance w a = some b) :
    ((addBalance w a d).map Prod.snd).sum = (w.map Prod.snd).sum + d := by
  induction w with
  | nil => simp [getBalance] at h
  | cons p rest ih =>
    obtain ⟨k, b0⟩ := p
    simp only [List.map_cons, List.nodup_cons] at hnd
    by_cases hk : k = a
    · rw [addBalance, if_pos hk, addBalance_of_not_mem rest a d (hk ▸ hnd.1)]
      simp only [List.map_cons, List.sum_cons]
      ring
    · have h2 : getBalance rest a = some b := by
        simp only [getBalance, if_neg hk] at h
        exact h
      simp only [addBalance, if_neg hk, List.map_cons, List.sum_cons,
        ih hnd.2 h2]
      ring

theorem nonneg_setBalance (w : List (String × Int)) (a : String) (v : Int)
    (hw : ∀ p ∈ w, 0 ≤ p.2) (hv : 0 ≤ v) :
    ∀ p ∈ setBalance w a v, 0 ≤ p.2 := by
  induction w with
  | nil => simp [setBalance]
  | cons q rest ih =>
    obtain ⟨k, b⟩ := q
    intro p hp
    simp only [setBalance, List.mem_cons] at hp
    rcases hp with hp | hp
    · subst hp
      dsimp only
      split
      · exact hv
      · exact hw (k, b) (by simp)
    · exact ih (fun q hq => hw q (List.mem_cons_of_mem _ hq)) p hp

theorem nonneg_addBalance (w : List (String × Int)) (a : String) (d : Int)
    (hw : ∀ p ∈ w, 0 ≤ p.2) (hd : 0 ≤ d) :
    ∀ p ∈ addBalance w a d, 0 ≤ p.2 := by
  induction w with
  | nil => simp [addBalance]
  | cons q rest ih =>
    obtain ⟨k, b⟩ := q
    intro p hp
    simp only [addBalance, List.mem_cons] at hp
    rcases hp with hp | hp
    · subst hp
      have hb : 0 ≤ b := hw (k, b) (by simp)
      dsimp only
      split
      · omega
      · exact hb
    · exact ih (fun q hq => hw q (List.mem_cons_of_mem _ hq)) p hp

/-! ### Case equations for TransferTokens -/

theorem transferTokens_parse_fail (st : LedgerState) (f t a : String)
    (hp : parseBigInt a = none) :
    TransferTokens st f t a = (Except.error TransferErr.invalidAmount, st) := by
  simp [TransferTokens, hp]

theorem transferTokens_nonpos (st : LedgerState) (f t a : String) (n : Int)
    (hp : parseBigInt a = some n) (hn : n ≤ 0) :
    TransferTokens st f t a = (Except.error TransferErr.invalidAmount, st) := by
  simp [TransferTokens, hp, hn]

theorem transferTokens_no_sender (st : LedgerState) (f t a : String) (n : Int)
    (hp : parseBigInt a = some n) (hn : 0 < n)
    (hb : getBalance st.wallets f = none) :
    TransferTokens st f t a = (Except.error TransferErr.senderNotFound, st) := by
  simp [TransferTokens, hp, hb, show ¬ n ≤ 0 by omega]

theorem transferTokens_insufficient (st : LedgerState) (f t a : String) (n b : Int)
    (hp : parseBigInt a = some n) (hn : 0 < n)
    (hb : getBalance st.wallets f = some b) (hlt : b < n) :
    TransferTokens st f t a = (Except.error TransferErr.insufficientBalance, st) := by
  simp [TransferTokens, hp, hb, show ¬ n ≤ 0 by omega, hlt]

theorem transferTokens_ok (st : LedgerState) (f t a : String) (n b : Int)
    (hp : parseBigInt a = some n) (hpos : 0 < n)
    (hb : getBalance st.wallets f = some b) (hle : n ≤ b) :
    TransferTokens st f t a =
      (Except.ok (intDecString (b - n)),
       { wallets :=
           if walletExists (setBalance st.wallets f (b - n)) t then
             addBalance (setBalance st.wallets f (b - n)) t n
           else setBalance st.wallets f (b - n) ++ [(t, n)],
         transfers := st.transfers ++ [⟨f, t, n⟩] }) := by
  simp [TransferTokens, hp, hb, show ¬ n ≤ 0 by omega, show ¬ b < n by omega]

/-- On every error the transaction is rolled back: the store is unchanged. -/
theorem transferTokens_rollback (st : LedgerState) (f t a : String) (e : TransferErr)
    (h : (TransferTokens st f t a).1 = Except.error e) :
    (TransferTokens st f t a).2 = st := by
  cases hp : parseBigInt a with
  | none => rw [transferTokens_parse_fail st f t a hp]
  | some n =>
    by_cases hn : n ≤ 0
    · rw [transferTokens_nonpos st f t a n hp hn]
    · cases hb : getBalance st.wallets f with
      | none => rw [transferTokens_no_sender st f t a n hp (by omega) hb]
      | some b =>
        by_cases hlt : b < n
        · rw [transferTokens_insufficient st f t a n b hp (by omega) hb hlt]
        · rw [transferTokens_ok st f t a n b hp (by omega) hb (by omega)] at h
          simp at h

/-- One `Transfer` call keeps all balances non-negative: the guard
`senderBalance >= amount` makes the debited balance non-negative, and the
credit adds a positive amount. -/
theorem transferTokens_nonneg_step (st : LedgerState) (f t a : String)
    (h : NonNegState st) : NonNegState (TransferTokens st f t a).2 := by
  cases hp : parseBigInt a with
  | none => rw [transferTokens_parse_fail st f t a hp]; exact h
  | some n =>
    by_cases hn : n ≤ 0
    · rw [transferTokens_nonpos st f t a n hp hn]; exact h
    · cases hb : getBalance st.wallets f with
      | none => rw [transferTokens_no_sender st f t a n hp (by omega) hb]; exact h
      | some b =>
        by_cases hlt : b < n
        · rw [transferTokens_insufficient st f t a n b hp (by omega) hb hlt]
          exact h
        · rw [transferTokens_ok st f t a n b hp (by omega) hb (by omega)]
          have hw1 : ∀ p ∈ setBalance st.wallets f (b - n), 0 ≤ p.2 :=
            nonneg_setBalance st.wallets f (b - n) h (by omega)
          intro p hp2
          simp only at hp2
          split at hp2
          · exact nonneg_addBalance _ t n hw1 (by omega) p hp2
          · rcases List.mem_append.mp hp2 with hm | hm
            · exact hw1 p hm
            · simp only [List.mem_singleton] at hm
              subst hm
              omega

/-- One `Transfer` call preserves both the total of all balances and the
primary-key uniqueness of addresses. -/
theorem transferTokens_conservation_step (st : LedgerState) (f t a : String)
    (hnd : NodupKeys st) :
    totalBalance (TransferTokens st f t a).2 = totalBalance st ∧
    NodupKeys (TransferTokens st f t a).2 := by
  cases hp : parseBigInt a with
  | none => rw [transferTokens_parse_fail st f t a hp]; exact ⟨rfl, hnd⟩
  | some n =>
    by_cases hn : n ≤ 0
    · rw [transferTokens_nonpos st f t a n hp hn]; exact ⟨rfl, hnd⟩
    · cases hb : getBalance st.wallets f with
      | none => rw [transferTokens_no_sender st f t a n hp (by omega) hb]
                exact ⟨rfl, hnd⟩
      | some b =>
        by_cases hlt : b < n
        · rw [transferTokens_insufficient st f t a n b hp (by omega) hb hlt]
          exact ⟨rfl, hnd⟩
        · rw [transferTokens_ok st f t a n b hp (by omega) hb (by omega)]
          have hkeys1 : (setBalance st.wallets f (b - n)).map Prod.fst =
              st.wallets.map Prod.fst := keys_setBalance st.wallets f (b - n)
          have hnd1 : ((setBalance st.wallets f (b - n)).map Prod.fst).Nodup := by
            rw [hkeys1]; exact hnd
          have hsum1 : ((setBalance st.wallets f (b - n)).map Prod.snd).sum =
              (st.wallets.map Prod.snd).sum - b + (b - n) :=
            sum_setBalance st.wallets f (b - n) b hnd hb
          by_cases hex : walletExists (setBalance st.wallets f (b - n)) t
          · obtain ⟨c, hc⟩ :=
              (walletExists_iff (setBalance st.wallets f (b - n)) t).mp hex
            constructor
            · simp only [totalBalance, if_pos hex]
              rw [sum_addBalance _ t n c hnd1 hc, hsum1]
              ring
            · simp only [NodupKeys, if_pos hex, keys_addBalance, hkeys1]
              exact hnd
          · have ht : t ∉ (setBalance st.wallets f (b - n)).map Prod.fst := by
              rw [← getBalance_eq_none_iff]
              simp only [walletExists, Option.isSome_iff_exists] at hex
              cases hgt : getBalance (setBalance st.wallets f (b - n)) t
              · rfl
              · exact absurd ⟨_, hgt⟩ hex
            constructor
            · simp only [totalBalance, if_neg hex, List.map_append,
                List.sum_append, hsum1, List.map_cons, List.map_nil,
                List.sum_cons, List.sum_nil]
              ring
            · simp only [NodupKeys, if_neg hex, List.map_append, List.map_cons,
                List.map_nil, hkeys1]
              refine List.Nodup.append hnd (List.nodup_singleton t) ?_
              intro x hx hmem
              simp only [List.mem_singleton] at hmem
              subst hmem
              rw [hkeys1] at ht
              exact ht hx

/-! ### Claim theorems -/

/-- Sample store used to instantiate the claim theorems at concrete inputs. -/
def sampleState : LedgerState :=
  { wallets := [("A", 10), ("B", 5)], transfers := [] }

/-- Claim C2: starting from any store whose balances are all non-negative,
every store reachable by any sequence of `Transfer` calls again has only
non-negative balances: in the sequential model the guard
`senderBalance >= amount` preserves the invariant at every operation. -/
theorem transfer_preserves_nonneg (st : LedgerState)
    (calls : List (String × String × String)) (h : NonNegState st) :
    NonNegState (runTransfers st calls) := by
  induction calls generalizing st with
  | nil => exact h
  | cons c cs ih =>
    have h1 : runTransfers st (c :: cs) =
        runTransfers (TransferTokens st c.1 c.2.1 c.2.2).2 cs := rfl
    rw [h1]
    exact ih _ (transferTokens_nonneg_step st c.1 c.2.1 c.2.2 h)

theorem transfer_preserves_nonneg_witness :
    NonNegState sampleState ∧
    NonNegState (runTransfers sampleState
      [("A", "B", "4"), ("B", "A", "9"), ("A", "C", "15")]) :=
  ⟨by decide,
   transfer_preserves_nonneg sampleState
     [("A", "B", "4"), ("B", "A", "9"), ("A", "C", "15")] (by decide)⟩

/-- Claim C3: every failed `Transfer` call rolls its transaction back, so the
wallets table (every sender and receiver balance, and the set of wallets)
and the transfer log are exactly as they were before the call. -/
theorem transfer_error_state_unchanged (st : LedgerState) (f t a : String)
    (e : TransferErr) (h : (TransferTokens st f t a).1 = Except.error e) :
    (TransferTokens st f t a).2 = st :=
  transferTokens_rollback st f t a e h

theorem transfer_error_state_unchanged_witness :
    (TransferTokens sampleState "A" "B" "11").1 =
      Except.error TransferErr.insufficientBalance ∧
    (TransferTokens sampleState "A" "B" "11").2 = sampleState :=
  ⟨rfl,
   transfer_error_state_unchanged sampleState "A" "B" "11"
     TransferErr.insufficientBalance rfl⟩

/-- Claim C4: `Transfer` never creates or destroys tokens: over any sequence
of calls (failed calls leave the store unchanged, successful ones move the
amount), the sum of all wallet balances is invariant, including when a call
creates a new receiver wallet; `NodupKeys` is the `address` primary-key
constraint that every database state satisfies. -/
theorem transfer_conserves_total (st : LedgerState)
    (calls : List (String × String × String)) (hnd : NodupKeys st) :
    totalBalance (runTransfers st calls) = totalBalance st := by
  induction calls generalizing st with
  | nil => rfl
  | cons c cs ih =>
    have h1 : runTransfers st (c :: cs) =
        runTransfers (TransferTokens st c.1 c.2.1 c.2.2).2 cs := rfl
    have hstep := transferTokens_conservation_step st c.1 c.2.1 c.2.2 hnd
    rw [h1, ih _ hstep.2, hstep.1]

theorem transfer_conserves_total_witness :
    NodupKeys sampleState ∧
    totalBalance (runTransfers sampleState
      [("A", "C", "7"), ("B", "A", "2"), ("A", "B", "100")]) =
      totalBalance sampleState :=
  ⟨by decide,
   transfer_conserves_total sampleState
     [("A", "C", "7"), ("B", "A", "2"), ("A", "B", "100")] (by decide)⟩

/-- Claim C5: a `Transfer` call fails with `InvalidAmount` exactly when the
amount string does not parse as a base-10 arbitrary-precision integer or
parses to a value at most zero, and such a call leaves the store untouched
no matter how many times it is repeated. -/
theorem transfer_invalid_amount_iff (st : LedgerState) (f t a : String) :
    ((TransferTokens st f t a).1 = Except.error TransferErr.invalidAmount ↔
      parseBigInt a = none ∨ ∃ n, parseBigInt a = some n ∧ n ≤ 0) ∧
    ((parseBigInt a = none ∨ ∃ n, parseBigInt a = some n ∧ n ≤ 0) →
      ∀ k, runTransfers st (List.replicate k (f, t, a)) = st) := by
  have hstep : ∀ s : LedgerState,
      (parseBigInt a = none ∨ ∃ n, parseBigInt a = some n ∧ n ≤ 0) →
      TransferTokens s f t a = (Except.error TransferErr.invalidAmount, s) := by
    intro s h
    rcases h with hp | ⟨n, hp, hn⟩
    · exact transferTokens_parse_fail s f t a hp
    · exact transferTokens_nonpos s f t a n hp hn
  constructor
  · constructor
    · intro h
      cases hp : parseBigInt a with
      | none => exact Or.inl rfl
      | some n =>
        by_cases hn : n ≤ 0
        · exact Or.inr ⟨n, rfl, hn⟩
        · exfalso
          cases hb : getBalance st.wallets f with
          | none =>
            rw [transferTokens_no_sender st f t a n hp (by omega) hb] at h
            simp at h
          | some b =>
            by_cases hlt : b < n
            · rw [transferTokens_insufficient st f t a n b hp (by omega) hb hlt] at h
              simp at h
            · rw [transferTokens_ok st f t a n b hp (by omega) hb (by omega)] at h
              simp at h
    · intro h
      rw [hstep st h]
  · intro h k
    induction k with
    | zero => rfl
    | succ k ih =>
      have h1 : runTransfers st (List.replicate (k + 1) (f, t, a)) =
          runTransfers (TransferTokens st f t a).2 (List.replicate k (f, t, a)) := by
        rw [List.replicate_succ]
        rfl
      rw [h1, hstep st h]
      exact ih

theorem transfer_invalid_amount_iff_witness :
    (TransferTokens sampleState "A" "B" "-5").1 =
      Except.error TransferErr.invalidAmount ∧
    runTransfers sampleState (List.replicate 3 ("A", "B", "-5")) = sampleState ∧
    (TransferTokens sampleState "A" "B" "0").1 =
      Except.error TransferErr.invalidAmount := by
  have h5 := transfer_invalid_amount_iff sampleState "A" "B" "-5"
  have h0 := transfer_invalid_amount_iff sampleState "A" "B" "0"
  exact ⟨h5.1.mpr (Or.inr ⟨-5, by decide, by decide⟩),
         h5.2 (Or.inr ⟨-5, by decide, by decide⟩) 3,
         h0.1.mpr (Or.inr ⟨0, by decide, by decide⟩)⟩

/-- Claim C6: for an amount that parses to a positive integer, the call fails
with `SenderNotFound` exactly when no wallet row exists for the sender (the
ledger never auto-creates one); with the sender present at balance `b` it
fails with `InsufficientBalance` exactly when `b < n` under exact integer
comparison; and every such failure leaves the store without any write. -/
theorem transfer_sender_errors (st : LedgerState) (f t a : String) (n : Int)
    (hp : parseBigInt a = some n) (hpos : 0 < n) :
    ((TransferTokens st f t a).1 = Except.error TransferErr.senderNotFound ↔
      getBalance st.wallets f = none) ∧
    (∀ b, getBalance st.wallets f = some b →
      ((TransferTokens st f t a).1 = Except.error TransferErr.insufficientBalance ↔
        b < n)) ∧
    (∀ e, (TransferTokens st f t a).1 = Except.error e →
      (TransferTokens st f t a).2 = st) := by
  refine ⟨⟨?_, ?_⟩, ?_, transferTokens_rollback st f t a⟩
  · intro h
    cases hb : getBalance st.wallets f with
    | none => rfl
    | some b =>
      exfalso
      by_cases hlt : b < n
      · rw [transferTokens_insufficient st f t a n b hp hpos hb hlt] at h
        simp at h
      · rw [transferTokens_ok st f t a n b hp hpos hb (by omega)] at h
        simp at h
  · intro hb
    rw [transferTokens_no_sender st f t a n hp hpos hb]
  · intro b hb
    constructor
    · intro h
      by_contra hlt
      rw [transferTokens_ok st f t a n b hp hpos hb (by omega)] at h
      simp at h
    · intro hlt
      rw [transferTokens_insufficient st f t a n b hp hpos hb hlt]

theorem transfer_sender_errors_witness :
    (TransferTokens sampleState "X" "B" "4").1 =
      Except.error TransferErr.senderNotFound ∧
    (TransferTokens sampleState "A" "B" "11").1 =
      Except.error TransferErr.insufficientBalance := by
  have h1 := transfer_sender_errors sampleState "X" "B" "4" 4 (by decide) (by decide)
  have h2 := transfer_sender_errors sampleState "A" "B" "11" 11 (by decide) (by decide)
  exact ⟨h1.1.mpr (by decide), (h2.2.1 10 (by decide)).mpr (by decide)⟩

/-- Claim C1: a successful transfer between two distinct wallets commits the
sender balance `b - n`, credits the receiver by `n` (adding `n` to its
balance when the receiver wallet exists, otherwise creating it with balance
exactly `n`), appends exactly one transfer record, leaves every other wallet
untouched, and returns the decimal-string representation of the sender's
new balance `b - n`. -/
theorem transfer_success_spec (st : LedgerState) (f t a : String) (n b : Int)
    (hp : parseBigInt a = some n) (hpos : 0 < n)
    (hb : getBalance st.wallets f = some b) (hle : n ≤ b) (hft : f ≠ t) :
    (TransferTokens st f t a).1 = Except.ok (intDecString (b - n)) ∧
    getBalance (TransferTokens st f t a).2.wallets f = some (b - n) ∧
    (∀ c, getBalance st.wallets t = some c →
      getBalance (TransferTokens st f t a).2.wallets t = some (c + n)) ∧
    (getBalance st.wallets t = none →
      getBalance (TransferTokens st f t a).2.wallets t = some n) ∧
    (TransferTokens st f t a).2.transfers = st.transfers ++ [⟨f, t, n⟩] ∧
    (∀ x, x ≠ f → x ≠ t →
      getBalance (TransferTokens st f t a).2.wallets x = getBalance st.wallets x) := by
  have heq := transferTokens_ok st f t a n b hp hpos hb hle
  have hw1f : getBalance (setBalance st.wallets f (b - n)) f = some (b - n) := by
    rw [getBalance_setBalance_self, hb]; rfl
  have hw1t : getBalance (setBalance st.wallets f (b - n)) t =
      getBalance st.wallets t :=
    getBalance_setBalance_ne st.wallets f (b - n) t (Ne.symm hft)
  refine ⟨?_, ?_, ?_, ?_, ?_, ?_⟩
  · simp only [heq]
  · simp only [heq]
    by_cases hex : walletExists (setBalance st.wallets f (b - n)) t = true
    · rw [if_pos hex, getBalance_addBalance_ne _ t n f hft]
      exact hw1f
    · rw [if_neg hex]
      exact getBalance_append_some _ _ f (b - n) hw1f
  · intro c hc
    have hex : walletExists (setBalance st.wallets f (b - n)) t = true :=
      (walletExists_iff _ t).mpr ⟨c, by rw [hw1t]; exact hc⟩
    simp only [heq, if_pos hex]
    rw [getBalance_addBalance_self, hw1t, hc]
    rfl
  · intro hc
    have hnone : getBalance (setBalance st.wallets f (b - n)) t = none := by
      rw [hw1t]; exact hc
    have hex : ¬ walletExists (setBalance st.wallets f (b - n)) t = true := by
      simp [walletExists, hnone]
    simp only [heq, if_neg hex]
    rw [getBalance_append_none _ _ t hnone]
    simp [getBalance]
  · simp only [heq]
  · intro x hxf hxt
    have hw1x : getBalance (setBalance st.wallets f (b - n)) x =
        getBalance st.wallets x :=
      getBalance_setBalance_ne st.wallets f (b - n) x hxf
    simp only [heq]
    by_cases hex : walletExists (setBalance st.wallets f (b - n)) t = true
    · rw [if_pos hex, getBalance_addBalance_ne _ t n x hxt, hw1x]
    · rw [if_neg hex]
      cases hg : getBalance (setBalance st.wallets f (b - n)) x with
      | none =>
        rw [getBalance_append_none _ _ x hg, ← hw1x, hg]
        simp [getBalance, Ne.symm hxt]
      | some v =>
        rw [getBalance_append_some _ _ x v hg, ← hw1x, hg]

theorem transfer_success_spec_witness :
    (TransferTokens sampleState "A" "B" "4").1 =
      Except.ok (intDecString (10 - 4)) ∧
    getBalance (TransferTokens sampleState "A" "B" "4").2.wallets "A" =
      some (10 - 4) ∧
    getBalance (TransferTokens sampleState "A" "B" "4").2.wallets "B" =
      some (5 + 4) ∧
    (TransferTokens sampleState "A" "B" "4").2.transfers =
      sampleState.transfers ++ [⟨"A", "B", 4⟩] := by
  have h := transfer_success_spec sampleState "A" "B" "4" 4 10
    (by decide) (by decide) (by decide) (by decide) (by decide)
  exact ⟨h.1, h.2.1, h.2.2.1 5 (by decide), h.2.2.2.2.1⟩

/-- Claim C8: `GetWallet` returns the committed balance rendered as a
decimal string when a wallet row exists for the address, and reports
not-found (a `nil` wallet, modelled as `none`) exactly when no row exists. -/
theorem getWallet_spec (st : LedgerState) (addr : String) :
    (∀ b, getBalance st.wallets addr = some b →
      GetWallet st addr = some ⟨addr, intDecString b⟩) ∧
    (GetWallet st addr = none ↔ walletExists st.wallets addr = false) := by
  constructor
  · intro b hb
    simp [GetWallet, hb]
  · cases hg : getBalance st.wallets addr with
    | none => simp [GetWallet, walletExists, hg]
    | some b => simp [GetWallet, walletExists, hg]

theorem getWallet_spec_witness :
    GetWallet sampleState "A" = some ⟨"A", intDecString 10⟩ ∧
    GetWallet sampleState "C" = none := by
  have h1 := getWallet_spec sampleState "A"
  have h2 := getWallet_spec sampleState "C"
  exact ⟨h1.1 10 (by decide), h2.2.mpr (by decide)⟩

/-- Claim C9: transferring the 40-digit amount
`1234567890123456789012345678901234567890` from any wallet whose balance is
at least that value succeeds and returns the exact decimal string of the
difference: parsing, comparison and subtraction are exact integer
arithmetic with no precision loss. -/
theorem transfer_large_amount_exact (st : LedgerState) (f t : String) (b : Int)
    (hb : getBalance st.wallets f = some b)
    (hge : (1234567890123456789012345678901234567890 : Int) ≤ b) :
    (TransferTokens st f t "1234567890123456789012345678901234567890").1 =
      Except.ok (intDecString
        (b - 1234567890123456789012345678901234567890)) := by
  have hp : parseBigInt "1234567890123456789012345678901234567890" =
      some (1234567890123456789012345678901234567890 : Int) := by decide
  simp only [transferTokens_ok st f t
    "1234567890123456789012345678901234567890"
    1234567890123456789012345678901234567890 b hp (by norm_num) hb hge]

/-- Store holding exactly the 40-digit amount of claim C9. -/
def largeState : LedgerState :=
  { wallets := [("A", 1234567890123456789012345678901234567890)],
    transfers := [] }

theorem transfer_large_amount_exact_witness :
    (TransferTokens largeState "A" "B"
        "1234567890123456789012345678901234567890").1 =
      Except.ok (intDecString (1234567890123456789012345678901234567890 -
        1234567890123456789012345678901234567890)) :=
  transfer_large_amount_exact largeState "A" "B"
    1234567890123456789012345678901234567890 (by decide) (by decide)

/-- Claim C10: a self-transfer of `n` with `0 < n ≤ b` succeeds; the sender
debit and the in-store receiver credit land on the same row, so the wallet's
committed balance stays `b`, one transfer record from the wallet to itself
is appended, and the returned string is the decimal representation of
`b - n`, a value different from the committed balance for every `n > 0`. -/
theorem transfer_self_spec (st : LedgerState) (A a : String) (n b : Int)
    (hp : parseBigInt a = some n) (hpos : 0 < n)
    (hb : getBalance st.wallets A = some b) (hle : n ≤ b) :
    (TransferTokens st A A a).1 = Except.ok (intDecString (b - n)) ∧
    getBalance (TransferTokens st A A a).2.wallets A = some b ∧
    (TransferTokens st A A a).2.transfers = st.transfers ++ [⟨A, A, n⟩] ∧
    b - n ≠ b := by
  have heq := transferTokens_ok st A A a n b hp hpos hb hle
  have hw1A : getBalance (setBalance st.wallets A (b - n)) A = some (b - n) := by
    rw [getBalance_setBalance_self, hb]; rfl
  have hex : walletExists (setBalance st.wallets A (b - n)) A = true :=
    (walletExists_iff _ A).mpr ⟨b - n, hw1A⟩
  refine ⟨?_, ?_, ?_, by omega⟩
  · simp only [heq]
  · simp only [heq, if_pos hex]
    rw [getBalance_addBalance_self, hw1A]
    have hbn : b - n + n = b := by omega
    simp [hbn]
  · simp only [heq]

theorem transfer_self_spec_witness :
    (TransferTokens sampleState "A" "A" "4").1 =
      Except.ok (intDecString (10 - 4)) ∧
    getBalance (TransferTokens sampleState "A" "A" "4").2.wallets "A" =
      some 10 ∧
    (TransferTokens sampleState "A" "A" "4").2.transfers =
      sampleState.transfers ++ [⟨"A", "A", 4⟩] := by
  have h := transfer_self_spec sampleState "A" "4" 4 10
    (by decide) (by decide) (by decide) (by decide)
  exact ⟨h.1, h.2.1, h.2.2.1⟩

end TokenTransfer
